import Mathlib

/-!
Shallow embedding of `src/main.rs` (a tiled multi-threaded Mandelbrot
renderer) and proofs about it.

Modelling conventions:
* Rust `usize` arithmetic is modelled by `Nat`.  In every place where the
  source subtracts, the subtraction is in-range (noted locally), so Nat's
  truncated subtraction agrees with `usize`.
* `type Real = f32` is modelled by `ℚ`.  All claims proved below concern
  either the control structure of the code (which is independent of the
  numeric type) or concrete evaluations at small integer-valued inputs,
  where `f32` arithmetic is exact and agrees with `ℚ`.
* `Complex::length` computes `sqrt (r*r + i*i)`.  Since both the threshold
  `MAX_LENGTH = 2` and the magnitude are nonnegative, the test
  `length z <= MAX_LENGTH` is equivalent to `lengthSq z <= MAX_LENGTH ^ 2`;
  the embedding uses the squared comparison so that everything stays in `ℚ`.
-/

namespace Mandelbrot

/-- Source `struct Complex { r: Real, i: Real }` from `src/main.rs`. -/
structure Complex where
  r : ℚ
  i : ℚ
  deriving DecidableEq, Repr

/-- Source `Complex::squared`: `{r: r*r - i*i, i: 2*r*i}`. -/
def Complex.squared (z : Complex) : Complex :=
  ⟨z.r * z.r - z.i * z.i, 2 * z.r * z.i⟩

/-- Source `Complex::add`: componentwise addition. -/
def Complex.add (z w : Complex) : Complex :=
  ⟨z.r + w.r, z.i + w.i⟩

/-- Squared magnitude: the source's `Complex::length` is `sqrt (r*r+i*i)`;
we keep the radicand (see the header comment on the squared comparison). -/
def Complex.lengthSq (z : Complex) : ℚ :=
  z.r * z.r + z.i * z.i

/-- Source `struct Vec2<T> { x: T, y: T }` from `src/main.rs`. -/
structure Vec2 (α : Type) where
  x : α
  y : α
  deriving DecidableEq, Repr

/-- Source `struct Color { r, g, b, a: Real }` from `src/main.rs`. -/
structure Color where
  r : ℚ
  g : ℚ
  b : ℚ
  a : ℚ
  deriving DecidableEq, Repr

/-- Source `Color::new()`: all channels zero. -/
def Color.new : Color := ⟨0, 0, 0, 0⟩

/-- Source `Color::add`: componentwise accumulation. -/
def Color.add (c rhs : Color) : Color :=
  ⟨c.r + rhs.r, c.g + rhs.g, c.b + rhs.b, c.a + rhs.a⟩

/-- Source `Color::divide`: divide every channel by `value`. -/
def Color.divide (c : Color) (value : ℚ) : Color :=
  ⟨c.r / value, c.g / value, c.b / value, c.a / value⟩

/-- Source `fn clamp<T: PartialOrd>(value, min, max)` from `src/main.rs`. -/
def clamp (value lo hi : ℕ) : ℕ :=
  if value < lo then lo
  else if value > hi then hi
  else value

/-- Source `fn divide_roundup(numinator, denominator)` from `src/main.rs`.
In Rust `%`/`/` by zero panic; all call sites in `main` pass the nonzero
constants `THREAD_WIDTH`/`THREAD_HEIGHT`.  The panicking behaviour on a
zero denominator is modelled separately by `checkedDivideRoundup`. -/
def divide_roundup (numinator denominator : ℕ) : ℕ :=
  if numinator % denominator = 0 then numinator / denominator
  else numinator / denominator + 1

/-- The same computation with the Rust panic on a zero denominator made
explicit as `none`. -/
def checkedDivideRoundup (numinator denominator : ℕ) : Option ℕ :=
  if denominator = 0 then none else some (divide_roundup numinator denominator)

/-- Source `fn min<T: PartialOrd>(a, b)` from `src/main.rs`. -/
def minNat (a b : ℕ) : ℕ :=
  if a < b then a else b

/-- Source `const COLOR_PALETTE: [Color; 16]` from `src/main.rs`, entry for entry. -/
def COLOR_PALETTE : List Color :=
  [ ⟨0.26, 0.1,  0.06, 1.0⟩,
    ⟨0.1,  0.03, 0.1,  1.0⟩,
    ⟨0.3,  0.01, 0.18, 1.0⟩,
    ⟨0.02, 0.02, 0.28, 1.0⟩,
    ⟨0.0,  0.03, 0.4,  1.0⟩,
    ⟨0.05, 0.17, 0.54, 1.0⟩,
    ⟨0.1,  0.3,  0.7,  1.0⟩,
    ⟨0.25, 0.5,  0.82, 1.0⟩,
    ⟨0.53, 0.71, 0.9,  1.0⟩,
    ⟨0.83, 0.93, 0.97, 1.0⟩,
    ⟨0.95, 0.91, 0.75, 1.0⟩,
    ⟨0.97, 0.78, 0.37, 1.0⟩,
    ⟨1.0,  0.67, 0.0,  1.0⟩,
    ⟨0.8,  0.5,  0.0,  1.0⟩,
    ⟨0.6,  0.34, 0.0,  1.0⟩,
    ⟨0.42, 0.2,  0.02, 1.0⟩ ]

/-- Source `const MAX_ITERATIONS: u32 = 250`. -/
def MAX_ITERATIONS : ℕ := 250

/-- Source `const MAX_LENGTH: Real = 2.0`. -/
def MAX_LENGTH : ℚ := 2

/-- The escape-time loop of `thread_worker` (src/main.rs lines 204-209):
`while temp.length() <= MAX_LENGTH && iterations < MAX_ITERATIONS
   { temp = temp.squared().add(&pos); iterations += 1; }`.
The guard `iterations < MAX_ITERATIONS` is represented by the fuel
`MAX_ITERATIONS - iterations`; the magnitude test is the exact squared
comparison. -/
def escapeLoop (pos : Complex) (temp : Complex) (iterations fuel : ℕ) : ℕ :=
  match fuel with
  | 0 => iterations
  | fuel' + 1 =>
    if temp.lengthSq ≤ MAX_LENGTH * MAX_LENGTH then
      escapeLoop pos ((temp.squared).add pos) (iterations + 1) fuel'
    else iterations

/-- The escape-time evaluator: `iterations = 0`, `temp = 0`, then the loop. -/
def escape (pos : Complex) : ℕ :=
  escapeLoop pos ⟨0, 0⟩ 0 MAX_ITERATIONS

/-- The iteration orbit `z_0 = 0`, `z_{k+1} = z_k² + c`: `orbit pos k` is the
value of `temp` after `k` executed loop iterations. -/
def orbit (pos : Complex) : ℕ → Complex
  | 0 => ⟨0, 0⟩
  | k + 1 => ((orbit pos k).squared).add pos

lemma escapeLoop_orbit_spec (pos : Complex) (fuel : ℕ) : ∀ i : ℕ,
    i ≤ escapeLoop pos (orbit pos i) i fuel ∧
    escapeLoop pos (orbit pos i) i fuel ≤ i + fuel ∧
    (∀ j, i ≤ j → j < escapeLoop pos (orbit pos i) i fuel →
      (orbit pos j).lengthSq ≤ MAX_LENGTH * MAX_LENGTH) ∧
    (escapeLoop pos (orbit pos i) i fuel < i + fuel →
      MAX_LENGTH * MAX_LENGTH < (orbit pos (escapeLoop pos (orbit pos i) i fuel)).lengthSq) := by
  induction fuel with
  | zero =>
    intro i
    simp [escapeLoop]
    intro j h1 h2
    omega
  | succ fuel ih =>
    intro i
    by_cases hc : (orbit pos i).lengthSq ≤ MAX_LENGTH * MAX_LENGTH
    · have hstep : escapeLoop pos (orbit pos i) i (fuel + 1)
          = escapeLoop pos (orbit pos (i + 1)) (i + 1) fuel := by
        simp [escapeLoop, hc, orbit]
      obtain ⟨h1, h2, h3, h4⟩ := ih (i + 1)
      refine ⟨by omega, by omega, ?_, ?_⟩
      · intro j hij hj
        rcases Nat.eq_or_lt_of_le hij with rfl | hlt
        · exact hc
        · exact h3 j hlt (by omega)
      · intro hlt
        rw [hstep] at hlt ⊢
        exact h4 (by omega)
    · have hstep : escapeLoop pos (orbit pos i) i (fuel + 1) = i := by
        simp [escapeLoop, hc]
      rw [hstep]
      refine ⟨le_refl i, by omega, ?_, fun _ => lt_of_not_le hc⟩
      intro j h1 h2
      omega

lemma escape_spec (pos : Complex) :
    escape pos ≤ MAX_ITERATIONS ∧
    (∀ j, j < escape pos → (orbit pos j).lengthSq ≤ MAX_LENGTH * MAX_LENGTH) ∧
    (escape pos < MAX_ITERATIONS →
      MAX_LENGTH * MAX_LENGTH < (orbit pos (escape pos)).lengthSq) := by
  have h := escapeLoop_orbit_spec pos MAX_ITERATIONS 0
  rw [show orbit pos 0 = ⟨0, 0⟩ from rfl] at h
  obtain ⟨h1, h2, h3, h4⟩ := h
  exact ⟨by simpa [escape] using h2,
    fun j hj => h3 j (Nat.zero_le j) (by simpa [escape] using hj),
    fun hlt => by simpa [escape] using h4 (by simpa [escape] using hlt)⟩

lemma escapeLoop_succ_of_le (pos temp : Complex) (i f : ℕ)
    (h : temp.lengthSq ≤ MAX_LENGTH * MAX_LENGTH) :
    escapeLoop pos temp i (f + 1) = escapeLoop pos ((temp.squared).add pos) (i + 1) f := by
  simp [escapeLoop, h]

lemma escape_pos (pos : Complex) : 1 ≤ escape pos := by
  have h250 : MAX_ITERATIONS = 249 + 1 := rfl
  have hzero : (Complex.lengthSq ⟨0, 0⟩ : ℚ) ≤ MAX_LENGTH * MAX_LENGTH := by
    norm_num [Complex.lengthSq, MAX_LENGTH]
  have hstep : escape pos = escapeLoop pos (orbit pos 1) 1 249 := by
    rw [escape, h250, escapeLoop_succ_of_le pos ⟨0, 0⟩ 0 249 hzero]
    rfl
  rw [hstep]
  exact (escapeLoop_orbit_spec pos 249 1).1

lemma escape_eq_of_first_escape (pos : Complex) (k : ℕ) (hk : k < MAX_ITERATIONS)
    (hbelow : ∀ j, j < k → (orbit pos j).lengthSq ≤ MAX_LENGTH * MAX_LENGTH)
    (hesc : MAX_LENGTH * MAX_LENGTH < (orbit pos k).lengthSq) :
    escape pos = k := by
  obtain ⟨h1, h2, h3⟩ := escape_spec pos
  rcases Nat.lt_trichotomy (escape pos) k with hlt | heq | hgt
  · have := h3 (lt_trans hlt hk)
    exact absurd (hbelow _ hlt) (not_le_of_lt this)
  · exact heq
  · exact absurd (h2 k hgt) (not_le_of_lt hesc)

lemma escape_eq_max_of_bounded (pos : Complex)
    (h : ∀ j, (orbit pos j).lengthSq ≤ MAX_LENGTH * MAX_LENGTH) :
    escape pos = MAX_ITERATIONS := by
  obtain ⟨h1, h2, h3⟩ := escape_spec pos
  rcases Nat.lt_or_ge (escape pos) MAX_ITERATIONS with hlt | hge
  · exact absurd (h _) (not_le_of_lt (h3 hlt))
  · omega

lemma orbit_one (pos : Complex) : orbit pos 1 = pos := by
  show (Complex.squared ⟨0, 0⟩).add pos = pos
  simp [Complex.squared, Complex.add]

lemma orbit_zero_const : ∀ j, orbit ⟨0, 0⟩ j = ⟨0, 0⟩ := by
  intro j
  induction j with
  | zero => rfl
  | succ j ih => simp [orbit, ih, Complex.squared, Complex.add]

lemma orbit_negone_cases : ∀ j, orbit ⟨-1, 0⟩ j = ⟨0, 0⟩ ∨ orbit ⟨-1, 0⟩ j = ⟨-1, 0⟩ := by
  intro j
  induction j with
  | zero => exact Or.inl rfl
  | succ j ih =>
    rcases ih with h | h
    · right
      simp [orbit, h, Complex.squared, Complex.add]
    · left
      simp [orbit, h, Complex.squared, Complex.add]

lemma orbit_oneone_two : orbit ⟨1, 1⟩ 2 = ⟨1, 3⟩ := by
  have h1 : orbit ⟨1, 1⟩ 1 = ⟨1, 1⟩ := orbit_one _
  show (Complex.squared (orbit ⟨1, 1⟩ 1)).add ⟨1, 1⟩ = ⟨1, 3⟩
  rw [h1]
  simp [Complex.squared, Complex.add]
  norm_num

/-- C3: the escape-time evaluator starts from `z0 = 0`, iterates
`z_{k+1} = z_k² + c` until either the magnitude exceeds the divergence
threshold or the count reaches `MAX_ITERATIONS`, and returns the count at
which the loop stopped: the result is at most `MAX_ITERATIONS`, every state
inspected before the final one passed the magnitude test, and if the loop
stopped early the state at the returned count exceeds the threshold.  The
evaluator is a total function on complex inputs by construction. -/
theorem escape_loop_characterisation (pos : Complex) :
    escape pos ≤ MAX_ITERATIONS ∧
    (∀ j, j < escape pos → (orbit pos j).lengthSq ≤ MAX_LENGTH * MAX_LENGTH) ∧
    (escape pos < MAX_ITERATIONS →
      MAX_LENGTH * MAX_LENGTH < (orbit pos (escape pos)).lengthSq) :=
  escape_spec pos

/-- Closed instance of `escape_loop_characterisation` at `c = 5 + 0i`,
discharging its inner implications at concrete indices. -/
theorem escape_loop_characterisation_witness :
    escape ⟨5, 0⟩ ≤ MAX_ITERATIONS ∧
    ((orbit ⟨5, 0⟩ 0).lengthSq ≤ MAX_LENGTH * MAX_LENGTH) := by
  refine ⟨(escape_loop_characterisation ⟨5, 0⟩).1, ?_⟩
  refine (escape_loop_characterisation ⟨5, 0⟩).2.1 0 ?_
  exact escape_pos ⟨5, 0⟩

/-- C4: reference-point classification.  `c = 0` and `c = -1` never diverge
and return the maximum iteration count; `c = 1 + i` diverges after exactly 2
iterations; every `c` with `|c| > 2` (equivalently `|c|² > 4`) escapes on the
very first iteration, so the evaluator returns the small count 1. -/
theorem escape_reference_points :
    escape ⟨0, 0⟩ = MAX_ITERATIONS ∧
    escape ⟨-1, 0⟩ = MAX_ITERATIONS ∧
    escape ⟨1, 1⟩ = 2 ∧
    (∀ c : Complex, MAX_LENGTH * MAX_LENGTH < c.lengthSq → escape c = 1) := by
  refine ⟨?_, ?_, ?_, ?_⟩
  · refine escape_eq_max_of_bounded _ (fun j => ?_)
    rw [orbit_zero_const j]
    norm_num [Complex.lengthSq, MAX_LENGTH]
  · refine escape_eq_max_of_bounded _ (fun j => ?_)
    rcases orbit_negone_cases j with h | h <;>
      rw [h] <;> norm_num [Complex.lengthSq, MAX_LENGTH]
  · refine escape_eq_of_first_escape _ 2 (by norm_num [MAX_ITERATIONS]) ?_ ?_
    · intro j hj
      interval_cases j
      · norm_num [orbit, Complex.lengthSq, MAX_LENGTH]
      · rw [orbit_one]
        norm_num [Complex.lengthSq, MAX_LENGTH]
    · rw [orbit_oneone_two]
      norm_num [Complex.lengthSq, MAX_LENGTH]
  · intro c hc
    refine escape_eq_of_first_escape _ 1 (by norm_num [MAX_ITERATIONS]) ?_ ?_
    · intro j hj
      interval_cases j
      norm_num [orbit, Complex.lengthSq, MAX_LENGTH]
    · rw [orbit_one]
      exact hc

/-- Closed instance of `escape_reference_points`: `c = 3 + 0i` has `|c|² > 4`
and the evaluator returns 1 there. -/
theorem escape_reference_points_witness :
    MAX_LENGTH * MAX_LENGTH < (Complex.lengthSq ⟨3, 0⟩) ∧ escape ⟨3, 0⟩ = 1 :=
  ⟨by norm_num [Complex.lengthSq, MAX_LENGTH],
   escape_reference_points.2.2.2 ⟨3, 0⟩ (by norm_num [Complex.lengthSq, MAX_LENGTH])⟩

/-- C10: the evaluator never returns 0: the initial `z0 = 0` has magnitude 0,
below the threshold, and the iteration cap 250 is positive, so the loop body
executes at least once and the returned count is at least 1. -/
theorem escape_returns_at_least_one (pos : Complex) : 1 ≤ escape pos :=
  escape_pos pos

/-- Source `struct ThreadDescryptor` from `src/main.rs`. -/
structure ThreadDescryptor where
  offset : Vec2 ℕ
  thread_size : Vec2 ℕ
  color_buffer_size : Vec2 ℕ
  sample_count : ℕ
  center : Vec2 ℚ
  view_size : Vec2 ℚ
  deriving DecidableEq, Repr

/-- Source `ThreadDescryptor::new()`: all fields zeroed. -/
def ThreadDescryptor.new : ThreadDescryptor :=
  ⟨⟨0, 0⟩, ⟨0, 0⟩, ⟨0, 0⟩, 0, ⟨0, 0⟩, ⟨0, 0⟩⟩

/-- Palette index computed at src/main.rs line 210: `iterations % 16`. -/
def paletteIndex (iterations : ℕ) : ℕ := iterations % 16

/-- Source `COLOR_PALETTE[(iterations%16) as usize]`, as a total lookup (the C6
theorem shows the index is always in bounds, so the default is never hit). -/
def paletteColor (iterations : ℕ) : Color :=
  COLOR_PALETTE.getD (paletteIndex iterations) Color.new

/-- The view transform of src/main.rs lines 198-203: the jittered absolute
pixel coordinate is normalised to `[-1,1]` and mapped affinely onto the view
window centered at `desc.center` with extent `desc.view_size`. -/
def samplePos (desc : ThreadDescryptor) (x y : ℕ) (jx jy : ℚ) : Complex :=
  let nx : ℚ := (((x + desc.offset.x : ℕ) : ℚ) + jx) / (desc.color_buffer_size.x : ℚ) * 2 - 1
  let ny : ℚ := (((y + desc.offset.y : ℕ) : ℚ) + jy) / (desc.color_buffer_size.y : ℚ) * 2 - 1
  ⟨desc.center.x + nx * desc.view_size.x / 2, desc.center.y + ny * desc.view_size.y / 2⟩

/-- One stochastic sample (src/main.rs lines 197-210): view transform, then
the escape-time evaluator, then the palette. -/
def sampleColor (desc : ThreadDescryptor) (x y : ℕ) (j : ℚ × ℚ) : Color :=
  paletteColor (escape (samplePos desc x y j.1 j.2))

/-- The per-pixel sampling loop of `thread_worker` (src/main.rs lines
195-212): accumulate one sample colour per RNG draw into `pixel_color` via
`Color::add`, then `Color::divide` by `sample_count`.  The RNG draws are
passed in as the list `jitters`, one `(jx, jy)` pair per sample, so the
code's `sample_count` loop iterations correspond to a jitter list of length
`desc.sample_count`. -/
def pixelColor (desc : ThreadDescryptor) (x y : ℕ) (jitters : List (ℚ × ℚ)) : Color :=
  (jitters.foldl (fun c j => c.add (sampleColor desc x y j)) Color.new).divide
    (desc.sample_count : ℚ)

/-- The direct (non-stochastic) escape-time-then-palette result for the
pixel: zero jitter, view transform, evaluator, palette. -/
def directPixelColor (desc : ThreadDescryptor) (x y : ℕ) : Color :=
  sampleColor desc x y (0, 0)

lemma foldl_color_add_channels (f : ℚ × ℚ → Color) (l : List (ℚ × ℚ)) :
    ∀ init : Color,
      (l.foldl (fun c j => c.add (f j)) init).r = init.r + (l.map (fun j => (f j).r)).sum ∧
      (l.foldl (fun c j => c.add (f j)) init).g = init.g + (l.map (fun j => (f j).g)).sum ∧
      (l.foldl (fun c j => c.add (f j)) init).b = init.b + (l.map (fun j => (f j).b)).sum ∧
      (l.foldl (fun c j => c.add (f j)) init).a = init.a + (l.map (fun j => (f j).a)).sum := by
  induction l with
  | nil => intro init; simp
  | cons hd tl ih =>
    intro init
    obtain ⟨h1, h2, h3, h4⟩ := ih (init.add (f hd))
    refine ⟨?_, ?_, ?_, ?_⟩
    · rw [List.foldl_cons, h1]
      simp only [List.map_cons, List.sum_cons, Color.add]
      ring
    · rw [List.foldl_cons, h2]
      simp only [List.map_cons, List.sum_cons, Color.add]
      ring
    · rw [List.foldl_cons, h3]
      simp only [List.map_cons, List.sum_cons, Color.add]
      ring
    · rw [List.foldl_cons, h4]
      simp only [List.map_cons, List.sum_cons, Color.add]
      ring

/-- C5: the sampler accumulates the sampled palette colours by
component-wise sum and divides every accumulated channel by `sample_count`,
so each output channel is the arithmetic mean of the individual sample
channels; and with `sample_count = 1` and the jitter fixed at `0` the output
equals the direct escape-time-then-palette result for the pixel. -/
theorem sampler_averages (desc : ThreadDescryptor) (x y : ℕ) (jitters : List (ℚ × ℚ))
    (hlen : jitters.length = desc.sample_count) (hpos : 1 ≤ desc.sample_count) :
    ((pixelColor desc x y jitters).r
        = (jitters.map (fun j => (sampleColor desc x y j).r)).sum / (desc.sample_count : ℚ) ∧
      (pixelColor desc x y jitters).g
        = (jitters.map (fun j => (sampleColor desc x y j).g)).sum / (desc.sample_count : ℚ) ∧
      (pixelColor desc x y jitters).b
        = (jitters.map (fun j => (sampleColor desc x y j).b)).sum / (desc.sample_count : ℚ) ∧
      (pixelColor desc x y jitters).a
        = (jitters.map (fun j => (sampleColor desc x y j).a)).sum / (desc.sample_count : ℚ)) ∧
    (desc.sample_count = 1 →
      pixelColor desc x y [(0, 0)] = directPixelColor desc x y) := by
  constructor
  · obtain ⟨h1, h2, h3, h4⟩ := foldl_color_add_channels (sampleColor desc x y) jitters Color.new
    refine ⟨?_, ?_, ?_, ?_⟩
    · simp only [pixelColor, Color.divide]
      rw [h1]
      norm_num [Color.new]
    · simp only [pixelColor, Color.divide]
      rw [h2]
      norm_num [Color.new]
    · simp only [pixelColor, Color.divide]
      rw [h3]
      norm_num [Color.new]
    · simp only [pixelColor, Color.divide]
      rw [h4]
      norm_num [Color.new]
  · intro h1
    simp [pixelColor, h1, directPixelColor, Color.add, Color.new, Color.divide]

/-- Closed instance of `sampler_averages` at a concrete descriptor with
`sample_count = 1` and the single jitter pair `(0,0)`. -/
theorem sampler_averages_witness :
    ([((0 : ℚ), (0 : ℚ))].length
        = (ThreadDescryptor.mk ⟨0, 0⟩ ⟨1, 1⟩ ⟨1, 1⟩ 1 ⟨0, 0⟩ ⟨2, 2⟩).sample_count) ∧
    (pixelColor (ThreadDescryptor.mk ⟨0, 0⟩ ⟨1, 1⟩ ⟨1, 1⟩ 1 ⟨0, 0⟩ ⟨2, 2⟩) 0 0 [(0, 0)]
        = directPixelColor (ThreadDescryptor.mk ⟨0, 0⟩ ⟨1, 1⟩ ⟨1, 1⟩ 1 ⟨0, 0⟩ ⟨2, 2⟩) 0 0) :=
  ⟨rfl,
    (sampler_averages (ThreadDescryptor.mk ⟨0, 0⟩ ⟨1, 1⟩ ⟨1, 1⟩ 1 ⟨0, 0⟩ ⟨2, 2⟩) 0 0
      [(0, 0)] rfl (le_refl 1)).2 rfl⟩

/-- C6: the palette mapper selects entry `k % 16` where 16 is the palette
length, so the index is always strictly below the palette length (the access
never goes out of bounds); the reference values `k = 0`, `15`, `16` and `35`
map to indices `0`, `15`, `0` and `3`. -/
theorem palette_indexing (k : ℕ) :
    paletteIndex k < COLOR_PALETTE.length ∧
    paletteIndex 0 = 0 ∧
    paletteIndex (COLOR_PALETTE.length - 1) = COLOR_PALETTE.length - 1 ∧
    paletteIndex COLOR_PALETTE.length = 0 ∧
    paletteIndex (2 * COLOR_PALETTE.length + 3) = 3 := by
  have hlen : COLOR_PALETTE.length = 16 := by decide
  refine ⟨?_, ?_, ?_, ?_, ?_⟩
  · rw [hlen]
    exact Nat.mod_lt k (by norm_num)
  · rfl
  · rw [hlen]
    decide
  · rw [hlen]
    decide
  · rw [hlen]
    decide

/-- One tile descriptor as built by the partition loop of `main`
(src/main.rs lines 249-263) at grid position `(x, y)`:
`offset = (x*tw, y*th)`, and — exactly as the source computes it —
`thread_size = (clamp tw 0 (max_width - 1), clamp th 0 (max_height - 1))`
where `max_width = W - x*tw` and `max_height = H - y*th`.  Both subtractions
are in-range for every generated grid position (`x*tw < W` whenever
`x < divide_roundup W tw` and `W > 0`; no positions are generated for
`W = 0`), so Nat subtraction agrees with `usize`. -/
def makeDescryptor (W H tw th sc : ℕ) (cx cy vw vh : ℚ) (x y : ℕ) : ThreadDescryptor :=
  { offset := ⟨x * tw, y * th⟩
    thread_size := ⟨clamp tw 0 (W - x * tw - 1), clamp th 0 (H - y * th - 1)⟩
    color_buffer_size := ⟨W, H⟩
    sample_count := sc
    center := ⟨cx, cy⟩
    view_size := ⟨vw, vh⟩ }

/-- The full partition sequence of `main` (src/main.rs lines 249-263):
row-major over the `divide_roundup`-sized grid. -/
def makeDescryptors (W H tw th sc : ℕ) (cx cy vw vh : ℚ) : List ThreadDescryptor :=
  (List.range (divide_roundup H th)).flatMap (fun y =>
    (List.range (divide_roundup W tw)).map (fun x =>
      makeDescryptor W H tw th sc cx cy vw vh x y))

/-- Tile `d` covers pixel `(px, py)` when the pixel lies inside the
half-open rectangle `[offset, offset + thread_size)`. -/
def coversPixel (d : ThreadDescryptor) (px py : ℕ) : Bool :=
  decide (d.offset.x ≤ px) && decide (px < d.offset.x + d.thread_size.x) &&
  decide (d.offset.y ≤ py) && decide (py < d.offset.y + d.thread_size.y)

/-- C1 (code-bug evidence): the partition does NOT tile the canvas.  On a
4×4 canvas with nominal 2×2 tiles, no generated tile covers pixel `(3, 0)`
(nor `(0, 3)`), because the source clamps each boundary tile to
`max_width - 1` instead of `max_width`; and on a 3×1 canvas with 2×1 tiles
the partition even produces a zero-width tile. -/
theorem partition_omits_canvas_edge :
    ((makeDescryptors 4 4 2 2 1 0 0 0 0).all (fun d => !(coversPixel d 3 0))) = true ∧
    ((makeDescryptors 4 4 2 2 1 0 0 0 0).all (fun d => !(coversPixel d 0 3))) = true ∧
    ((makeDescryptors 3 1 2 1 1 0 0 0 0).any (fun d => decide (d.thread_size.x = 0))) = true := by
  refine ⟨?_, ?_, ?_⟩ <;> decide

/-- C2 (code-bug evidence): the produced tile size is
`min(tile_w, canvas_w - offset.x - 1)`, one less than the claimed
`min(tile_w, canvas_w - offset.x)` at every boundary tile.  Concretely,
with `W = 4, tw = 2` (an exact multiple) the rightmost tile has width 1
instead of 2, and with `W = 3, tw = 2` it has width 0 instead of
`W mod tw = 1`. -/
theorem boundary_tile_width_off_by_one :
    ((makeDescryptors 4 1 2 1 1 0 0 0 0).getD 1 ThreadDescryptor.new).thread_size.x = 1 ∧
    ((makeDescryptors 3 1 2 1 1 0 0 0 0).getD 1 ThreadDescryptor.new).thread_size.x = 0 := by
  refine ⟨?_, ?_⟩ <;> decide

/-- The commit loop of `thread_worker` (src/main.rs lines 217-223): after
locking the shared buffer, for each `(x, y)` of the tile write
`temp_color_buffer[y * thread_size.x + x]` to the shared buffer at row-major
index `(y + offset.y) * color_buffer_size.x + (x + offset.x)`. -/
def commitTile (desc : ThreadDescryptor) (temp cb : List Color) : List Color :=
  (List.range desc.thread_size.y).foldl (fun cb1 y =>
    (List.range desc.thread_size.x).foldl (fun cb2 x =>
      cb2.set ((y + desc.offset.y) * desc.color_buffer_size.x + (x + desc.offset.x))
        (temp.getD (y * desc.thread_size.x + x) Color.new)) cb1) cb

lemma foldl_preserves_getElem {α β : Type} (f : List α → β → List α) (l : List β) (i : ℕ)
    (h : ∀ cb a, a ∈ l → (f cb a)[i]? = cb[i]?) :
    ∀ cb : List α, (l.foldl f cb)[i]? = cb[i]? := by
  induction l with
  | nil => intro cb; rfl
  | cons hd tl ih =>
    intro cb
    rw [List.foldl_cons, ih (fun cb a ha => h cb a (List.mem_cons_of_mem hd ha))]
    exact h cb hd (List.mem_cons_self hd tl)

/-- C7: the commit step writes the shared framebuffer only at the row-major
indices `(y + offset.y) * canvas_width + (x + offset.x)` with
`x < thread_size.x` and `y < thread_size.y` — every index `i` that is not of
this form holds exactly the colour it held before the commit. -/
theorem commit_writes_only_tile (desc : ThreadDescryptor) (temp cb : List Color) (i : ℕ)
    (h : ∀ x y, x < desc.thread_size.x → y < desc.thread_size.y →
      i ≠ (y + desc.offset.y) * desc.color_buffer_size.x + (x + desc.offset.x)) :
    (commitTile desc temp cb)[i]? = cb[i]? := by
  refine foldl_preserves_getElem _ _ i (fun cb1 y hy => ?_) cb
  rw [List.mem_range] at hy
  refine foldl_preserves_getElem _ _ i (fun cb2 x hx => ?_) cb1
  rw [List.mem_range] at hx
  exact List.getElem?_set_ne (Ne.symm (h x y hx hy))

/-- Closed instance of `commit_writes_only_tile`: a 2×2 tile at offset
`(1, 1)` in a 4×4 framebuffer leaves index 0 untouched. -/
theorem commit_writes_only_tile_witness :
    (commitTile (ThreadDescryptor.mk ⟨1, 1⟩ ⟨2, 2⟩ ⟨4, 4⟩ 1 ⟨0, 0⟩ ⟨2, 2⟩)
        (List.replicate 4 (Color.mk 1 1 1 1)) (List.replicate 16 Color.new))[0]?
      = (List.replicate 16 Color.new)[0]? := by
  refine commit_writes_only_tile _ _ _ 0 ?_
  intro x y hx hy
  simp only [ThreadDescryptor.mk] at hx hy ⊢
  omega

/-- The initial dispatch wave of `main` (src/main.rs lines 270-276): tile
`i` is handed to freshly spawned slot `i` for
`i < min(tile count, THREAD_COUNT)`, in partition order.  Pairs are
`(slot, tile)`. -/
def initialDispatch (total threadCount : ℕ) : List (ℕ × ℕ) :=
  (List.range (minNat total threadCount)).map (fun i => (i, i))

/-- The coordinator loop of `main` (src/main.rs lines 277-293): while fewer
than `total` completion signals have been received, block for the next
signal (the slot id `signals finished`, where `signals` enumerates the
channel contents in arrival order), count it, and — if undispatched tiles
remain — dispatch tile `next_thread` to the freed slot.  Returns the
`(slot, tile)` dispatch pairs made by the loop together with the number of
signals received from the channel. -/
def coordLoop (total : ℕ) (signals : ℕ → ℕ) (finished nextThread : ℕ) :
    List (ℕ × ℕ) × ℕ :=
  if h : finished < total then
    if nextThread < total then
      let rest := coordLoop total signals (finished + 1) (nextThread + 1)
      ((signals finished, nextThread) :: rest.1, rest.2 + 1)
    else
      let rest := coordLoop total signals (finished + 1) nextThread
      (rest.1, rest.2 + 1)
  else ([], 0)
termination_by total - finished

lemma coordLoop_spec (total : ℕ) (signals : ℕ → ℕ) : ∀ fuel finished nextThread,
    fuel = total - finished → finished ≤ nextThread → nextThread ≤ total →
    (coordLoop total signals finished nextThread).2 = total - finished ∧
    (coordLoop total signals finished nextThread).1.map Prod.snd
      = List.range' nextThread (total - nextThread) := by
  intro fuel
  induction fuel with
  | zero =>
    intro finished nextThread hfuel hf hn
    have hstop : ¬ finished < total := by omega
    have hnt : nextThread = total := by omega
    rw [coordLoop, dif_neg hstop]
    refine ⟨by simp; omega, ?_⟩
    simp [hnt]
  | succ fuel ih =>
    intro finished nextThread hfuel hf hn
    have hgo : finished < total := by omega
    rw [coordLoop, dif_pos hgo]
    by_cases hd : nextThread < total
    · obtain ⟨ih1, ih2⟩ := ih (finished + 1) (nextThread + 1) (by omega) (by omega) (by omega)
      simp only [if_pos hd, List.map_cons, ih1, ih2]
      constructor
      · omega
      · have hsub : total - nextThread = (total - (nextThread + 1)) + 1 := by omega
        rw [hsub, List.range'_succ nextThread (total - (nextThread + 1)) 1]
    · have hnt : nextThread = total := by omega
      obtain ⟨ih1, ih2⟩ := ih (finished + 1) nextThread (by omega) (by omega) hn
      simp only [if_neg hd, ih1, ih2]
      constructor
      · omega
      · simp [hnt]

lemma coordinator_all_tiles (total threadCount : ℕ) (signals : ℕ → ℕ) :
    (initialDispatch total threadCount
        ++ (coordLoop total signals 0 (minNat total threadCount)).1).map Prod.snd
      = List.range total ∧
    (coordLoop total signals 0 (minNat total threadCount)).2 = total := by
  have hm : minNat total threadCount ≤ total := by
    unfold minNat
    split <;> omega
  obtain ⟨h2, h1⟩ := coordLoop_spec total signals (total - 0) 0 (minNat total threadCount)
    rfl (Nat.zero_le _) hm
  constructor
  · rw [List.map_append, h1]
    have hinit : (initialDispatch total threadCount).map Prod.snd
        = List.range' 0 (minNat total threadCount) := by
      rw [initialDispatch, ← List.range_eq_range']
      simp [Function.comp_def]
    rw [hinit, List.range_eq_range']
    have := List.range'_append 0 (minNat total threadCount)
      (total - minNat total threadCount) 1
    simp only [one_mul, Nat.mul_one, Nat.zero_add] at this
    rw [this]
    congr 1
    omega
  · omega

/-- C8: the coordinator first dispatches tiles `0 .. min(THREAD_COUNT,
tile count) - 1` to that many slots (pair `(slot i, tile i)`); thereafter
each completion signal dispatches the next tile in partition order to the
freed slot while unassigned tiles remain.  Over the whole run every tile
index is dispatched exactly once — the dispatched tile sequence is exactly
`0, 1, …, total-1` — and the loop terminates after receiving exactly
`total` completion signals, whatever the worker count and whatever slot
ids the signals carry. -/
theorem coordinator_dispatches_each_tile_once (total threadCount : ℕ) (signals : ℕ → ℕ) :
    (initialDispatch total threadCount
        ++ (coordLoop total signals 0 (minNat total threadCount)).1).map Prod.snd
      = List.range total ∧
    (coordLoop total signals 0 (minNat total threadCount)).2 = total :=
  coordinator_all_tiles total threadCount signals

/-- C9 counterexample: with the degenerate configuration `sample_count = 0`
(canvas 4×4, nominal tile 2×2, one worker slot) nothing is rejected: the
partitioner produces 4 tiles, the initial dispatch wave spawns a worker, and
the per-pixel sampler runs to completion, dividing the (empty) accumulated
colour by the zero sample count instead of being guarded — the render
proceeds rather than failing before any worker is spawned.  (In `f32` that
division yields NaN channels; in the exact model it yields `0/0`.) -/
theorem zero_sample_count_not_rejected :
    (makeDescryptors 4 4 2 2 0 0 0 0 0).length = 4 ∧
    initialDispatch (makeDescryptors 4 4 2 2 0 0 0 0 0).length 1 ≠ [] ∧
    pixelColor (makeDescryptor 4 4 2 2 0 0 0 0 0 0 0) 0 0 [] = Color.new.divide 0 := by
  refine ⟨by decide, by decide, ?_⟩
  simp [pixelColor, makeDescryptor]

/-- C9 (amended): the code performs no configuration validation.  With
`sample_count = 0` the partition, dispatch and sampling all run as normal
(all 4 tiles of a 4×4/2×2 configuration are dispatched and completed, and
the sampler divides by zero); a zero nominal tile extent is not rejected
but aborts fatally (division-by-zero panic inside `divide_roundup`) during
partitioning, before any worker is spawned; a zero-sized canvas simply
yields an empty tile list and the render completes without error. -/
theorem no_configuration_validation :
    ((makeDescryptors 4 4 2 2 0 0 0 0 0).length = 4 ∧
      (coordLoop (makeDescryptors 4 4 2 2 0 0 0 0 0).length (fun _ => 0) 0
        (minNat (makeDescryptors 4 4 2 2 0 0 0 0 0).length 1)).2
        = (makeDescryptors 4 4 2 2 0 0 0 0 0).length ∧
      pixelColor (makeDescryptor 4 4 2 2 0 0 0 0 0 0 0) 0 0 [] = Color.new.divide 0) ∧
    checkedDivideRoundup 4 0 = none ∧
    makeDescryptors 0 0 2 2 1 0 0 0 0 = [] := by
  refine ⟨⟨by decide, (coordinator_all_tiles _ 1 (fun _ => 0)).2, ?_⟩, rfl, by decide⟩
  simp [pixelColor, makeDescryptor]
